import Mathlib

/-!
Verification development for the telephony session bridge
(src/telephony/main.py, gemini_live.py, config.py).

Text is modelled as a list of characters; Python string operations
(lower, strip, split, substring membership) are embedded as executable
functions on character lists. The call-control / language-monitor logic
of the Gemini reader loop is embedded as a step function on an explicit
session-state record, and the paced audio sender as a timed transition
system whose awaits are the interleaving points for environment events.
-/

/-- Text as Python strings: a list of characters. -/
abbrev Str := List Char

/-- Python str.lower() on one character (ASCII letters; other characters
are returned unchanged, matching the code points used by the service). -/
def lowerChar (c : Char) : Char :=
  match c with
  | 'A' => 'a' | 'B' => 'b' | 'C' => 'c' | 'D' => 'd' | 'E' => 'e'
  | 'F' => 'f' | 'G' => 'g' | 'H' => 'h' | 'I' => 'i' | 'J' => 'j'
  | 'K' => 'k' | 'L' => 'l' | 'M' => 'm' | 'N' => 'n' | 'O' => 'o'
  | 'P' => 'p' | 'Q' => 'q' | 'R' => 'r' | 'S' => 's' | 'T' => 't'
  | 'U' => 'u' | 'V' => 'v' | 'W' => 'w' | 'X' => 'x' | 'Y' => 'y'
  | 'Z' => 'z'
  | c => c

/-- Python str.lower(). -/
def pyLower (s : Str) : Str := s.map lowerChar

/-- Python str.strip() with no argument: drop whitespace at both ends. -/
def pyStrip (s : Str) : Str :=
  ((s.dropWhile Char.isWhitespace).reverse.dropWhile Char.isWhitespace).reverse

/-- Python str.strip(chars): drop characters of the given set at both ends. -/
def pyStripChars (chars : Str) (s : Str) : Str :=
  ((s.dropWhile (chars.contains ·)).reverse.dropWhile (chars.contains ·)).reverse

/-- Helper for pySplit: accumulate the current word (reversed). -/
def splitWsAux : Str → Str → List Str
  | [], acc => if acc.isEmpty then [] else [acc.reverse]
  | c :: rest, acc =>
    if c.isWhitespace then
      if acc.isEmpty then splitWsAux rest [] else acc.reverse :: splitWsAux rest []
    else splitWsAux rest (c :: acc)

/-- Python str.split() with no argument: split on whitespace runs,
discarding empty words. -/
def pySplit (s : Str) : List Str := splitWsAux s []

/-- Helper for whitespace collapsing: the flag records whether the previous
character was whitespace (already replaced by a single space). -/
def collapseWsAux : Bool → Str → Str
  | _, [] => []
  | prevWs, c :: rest =>
    if c.isWhitespace then
      if prevWs then collapseWsAux true rest else ' ' :: collapseWsAux true rest
    else c :: collapseWsAux false rest

/-- Substring test: Python `needle in hay`. -/
def containsSub : Str → Str → Bool
  | [], needle => needle.isEmpty
  | c :: rest, needle => needle.isPrefixOf (c :: rest) || containsSub rest needle

/-- main.py `_normalize_text`: lowercase, strip, collapse whitespace runs
to a single space; None and the empty string normalize to "". -/
def normalizeText (text : Option Str) : Str :=
  match text with
  | none => []
  | some t => collapseWsAux false (pyLower (pyStrip t))

/-- The affirmative answers recognised by main.py `_is_affirmative`. -/
def affirmativeSet : List Str :=
  ["yes", "y", "yeah", "yep", "haan", "ha", "han", "ji", "haa", "bilkul",
   "haan ji"].map String.toList

/-- main.py `_is_affirmative`. -/
def isAffirmative (text : Option Str) : Bool :=
  affirmativeSet.contains (normalizeText text)

/-- The negative answers recognised by main.py `_is_negative`. -/
def negativeSet : List Str :=
  ["no", "n", "nope", "nah", "nahi", "nahin", "nahi ji", "mat"].map String.toList

/-- main.py `_is_negative`. -/
def isNegative (text : Option Str) : Bool :=
  negativeSet.contains (normalizeText text)

/-- The explicit transfer-request phrases of main.py
`_is_explicit_transfer_request`. -/
def transferPhrases : List Str :=
  ["talk to a person", "talk to someone", "talk to sales", "talk to agent",
   "talk to dealer", "connect me to", "connect to dealer", "connect to sales",
   "speak to", "kisi se baat", "agent se baat", "dealer se baat",
   "sales team se baat", "insaan se baat", "baat karao",
   "baat karni hai"].map String.toList

/-- main.py `_is_explicit_transfer_request`. -/
def isExplicitTransferRequest (text : Option Str) : Bool :=
  let normalized := normalizeText text
  if normalized.isEmpty then false
  else transferPhrases.any (fun p => containsSub normalized p)

/-- main.py `_is_transfer_question`. -/
def isTransferQuestion (text : Option Str) : Bool :=
  let normalized := normalizeText text
  if normalized.isEmpty then false
  else
    containsSub normalized ("sales team").toList
    || containsSub normalized ("speak with our sales").toList
    || containsSub normalized ("sales team se baat").toList
    || containsSub normalized ("sales team se baat karna chahenge").toList
    || containsSub normalized ("sales team se baat karna chahenge?").toList

/-- The goodbye phrases of main.py `_is_goodbye_message`. -/
def goodbyePhrases : List Str :=
  ["have a great day", "have a good day", "have a nice day", "din shubh ho",
   "aapka din shubh", "namaste aur dhanyawad", "call karne ke liye dhanyawad",
   "thank you for calling", "thanks for calling", "goodbye", "good bye",
   "alvida"].map String.toList

/-- main.py `_is_goodbye_message`: lowercases and strips, then tests the
goodbye phrase list for substring occurrence. -/
def isGoodbyeMessage (text : Option Str) : Bool :=
  match text with
  | none => false
  | some t =>
    let normalized := pyStrip (pyLower t)
    goodbyePhrases.any (fun p => containsSub normalized p)

/-- main.py `_HINDI_WORDS`: common Hindi words in Latin script. -/
def hindiWords : List Str :=
  ["mein", "hai", "hain", "ho", "hoon", "hun", "tha", "thi",
   "kya", "aur", "nahi", "haan", "ji", "naa",
   "chahiye", "chahenge", "chahte", "chahti",
   "karni", "karna", "karte", "karti", "karo",
   "batao", "bata", "batana", "bataye",
   "mujhe", "humko", "hamein", "unko",
   "humare", "aapka", "aapke", "aapki", "tumhara",
   "toh", "theek", "accha", "bahut",
   "abhi", "kal", "aaj", "parso",
   "dena", "denge", "dijiye",
   "lena", "lenge", "lijiye",
   "suno", "suniye", "dekho", "dekhiye",
   "apna", "apni", "apne",
   "yeh", "woh", "koi", "kuch",
   "lekin", "ya", "phir", "agar",
   "dhanyawad", "shukriya", "namaste",
   "baat", "gaadi", "paisa", "naam",
   "ka", "ki", "ke", "ko", "se", "pe", "par", "tak",
   "mera", "teri", "uska", "uski",
   "kaisa", "kaisi", "kaise", "kitna", "kitni",
   "jaldi", "dhire", "achha",
   "swagat", "madad", "sakti", "sakta"].map String.toList

/-- The yes/no sentence openers of main.py `_is_data_response` (step 1). -/
def yesNoStarts : List Str :=
  ["yes", "no", "yeah", "yep", "nah", "ok", "okay", "sure",
   "haan", "nahi", "nahin", "ji", "bilkul", "theek", "hmm",
   "accha", "right"].map String.toList

/-- The name-giving patterns of main.py `_is_data_response` (step 2). -/
def namePatterns : List Str :=
  ["my name is", "my name\x27s", "i am ", "i\x27m ", "this is ",
   "naam ", "mera naam", "it\x27s ", "call me "].map String.toList

/-- The date/time words of main.py `_is_data_response` (step 3). -/
def dateWords : List Str :=
  ["tomorrow", "today", "yesterday",
   "monday", "tuesday", "wednesday", "thursday",
   "friday", "saturday", "sunday",
   "kal", "aaj", "parso",
   "next week", "this week", "day after"].map String.toList

/-- The address/location words of main.py `_is_data_response` (step 4). -/
def addrWords : List Str :=
  ["road", "street", "nagar", "colony", "sector", "marg",
   "lane", "avenue", "block", "phase", "floor", "flat",
   "building", "chowk", "bazaar", "market", "pin code",
   "pincode", "area"].map String.toList

/-- Number of digit characters in a string (Python
`sum(1 for c in tl if c.isdigit())`, ASCII model). -/
def digitCount (s : Str) : Nat := s.countP (fun c => c.isDigit)

/-- main.py `_is_data_response`: detects data-point responses (yes/no,
names, dates, addresses, phone numbers) that must never switch the
language state. The phone-number step fires at 7 or more digits. -/
def isDataResponse (text : Str) : Bool :=
  let tl := pyStrip (pyLower text)
  if tl.isEmpty then false
  else if yesNoStarts.any (fun p =>
      tl == p || (p ++ [' ']).isPrefixOf tl || (p ++ [',']).isPrefixOf tl) then true
  else if namePatterns.any (fun p => containsSub tl p) then true
  else if dateWords.any (fun p => containsSub tl p) then true
  else if addrWords.any (fun p => containsSub tl p) then true
  else decide (7 ≤ digitCount tl)

/-- Utterance category of main.py `_detect_language`: "A" (data response,
never changes the language state) or "B" (full conversational sentence,
changes the language state). -/
inductive Category
  | A
  | B
deriving DecidableEq, Repr

/-- The email/domain fragments of main.py `_detect_language`. -/
def emailFragments : List Str :=
  ["gmail", "yahoo", "hotmail", "outlook", ".com", ".in", ".co"].map String.toList

/-- The punctuation set stripped from words in `_detect_language`
(includes the at sign). -/
def punctChars : Str := (".,!?;:\"\x27()@").toList

/-- The punctuation set stripped in the Devanagari sentence check and in
`_detect_agent_language` (no at sign). -/
def punctCharsNoAt : Str := (".,!?;:\"\x27()").toList

/-- main.py `_detect_language`: classify an utterance into a language
("hindi" / "english" / "unknown") and a category (A or B). -/
def detectLanguage (text : Str) : Str × Category :=
  if (pyStrip text).isEmpty then (("unknown").toList, Category.A)
  else
    let textLower := pyLower text
    if text.contains '@'
        || emailFragments.any (fun d => containsSub textLower d) then
      (("unknown").toList, Category.A)
    else if isDataResponse text then (("unknown").toList, Category.A)
    else
      let hasDevanagari := text.any (fun c =>
        decide (0x900 ≤ c.toNat ∧ c.toNat ≤ 0x97F))
      let words := (pySplit text).map (pyStripChars punctChars)
      let meaningful := words.filter (fun w => 1 < w.length)
      if hasDevanagari then
        if meaningful.length < 4 then (("hindi").toList, Category.A)
        else
          let hasSentenceWords :=
            (((pySplit text).map (pyStripChars punctCharsNoAt)).filter
              (fun w => 2 < w.length)).any (fun w => hindiWords.contains w)
          if hasSentenceWords then (("hindi").toList, Category.B)
          else (("hindi").toList, Category.A)
      else
        if meaningful.length < 4 then (("unknown").toList, Category.A)
        else
          let hindiCount := meaningful.countP (fun w => hindiWords.contains (pyLower w))
          if 4 * hindiCount ≥ max meaningful.length 1 ∨ 3 ≤ hindiCount then
            (("hindi").toList, Category.B)
          else (("english").toList, Category.B)

/-- main.py `_detect_agent_language`: which language the agent spoke,
from the accumulated turn text (20 percent Hindi words means Hindi). -/
def detectAgentLanguage (text : Str) : Str :=
  if (pyStrip text).isEmpty then ("unknown").toList
  else
    let words := ((pySplit text).filter
        (fun w => 1 < (pyStripChars punctCharsNoAt w).length)).map
      (fun w => pyLower (pyStripChars punctCharsNoAt w))
    if words.isEmpty then ("unknown").toList
    else
      let hindiCount := words.countP (fun w => hindiWords.contains w)
      let total := words.length
      if 5 * hindiCount ≥ total then ("hindi").toList else ("english").toList

/-- Speaker of a transcription event (serverContent input/output
transcription demux in main.py `_extract_transcription`). -/
inductive Speaker
  | user
  | agent
deriving DecidableEq, Repr

/-- The call-control and language-monitor fields of main.py
`TelephonySession` that the Gemini reader loop reads and writes.
`transferQuestionAsked` models the truthiness of
`transfer_question_asked_at` (a timestamp in the source, only ever
tested for being set). -/
structure SessionState where
  callEnding : Bool
  hangupSent : Bool
  userWantsTransfer : Option Bool
  transferQuestionAsked : Bool
  transferQuestionAnswered : Bool
  lastUserText : Option Str
  lastAgentText : Option Str
  lastTransferAnswerText : Option Str
  currentTurnAgentText : Str
  currentTurnUserText : Str
  languageState : Str
  languageCorrectionPending : Bool
  conversation : List (Speaker × Str)
deriving DecidableEq, Repr

/-- Kind of tool/function response sent back to the model
(`send_function_response` payloads in main.py): an error rejection
(payload carries an "error" field), an acceptance (payload carries
"status": "ok"), or the deflection sent while a language correction is
pending (payload carries "status": "ignored", no error field). -/
inductive RespKind
  | errorResp
  | okResp
  | ignoredResp
deriving DecidableEq, Repr

/-- Externally visible actions of one reader-loop iteration. -/
inductive Effect
  | funcResponse (id : Str) (kind : RespKind)
  | scheduleCallEnd
  | clearEvent
  | injectLanguage (lang : Str)
deriving DecidableEq, Repr

/-- Modelled from the spec: `GeminiLiveSession.inject_language_context`
is invoked by main.py (language mismatch branch) but is not defined in
src/telephony/gemini_live.py. Per the model-link operation of the spec, named
injectTextTurn, it sends one synthetic corrective text turn instructing
the model to continue in the expected language; on a connected link the
send succeeds. -/
def injectLanguageContext (lang : Str) : Effect := Effect.injectLanguage lang

/-- One inbound model message, as demultiplexed by the reader loop
(interruption flag, optional function call with its correlation id,
turn-complete marker, optional transcription fragment). -/
structure Msg where
  interrupted : Bool := false
  funcCall : Option (Str × Str) := none
  turnComplete : Bool := false
  transcription : Option (Speaker × Str) := none
deriving DecidableEq, Repr

/-- A pure turn-complete message. -/
def tcMsg : Msg := { turnComplete := true }

/-- A pure function-call message carrying name and correlation id. -/
def fcMsg (name fid : Str) : Msg := { funcCall := some (name, fid) }

/-- main.py reader loop, function-call handling (lines 931-1086): the
third result component is true when the source runs a loop continue,
skipping the rest of the loop body for this message. `age` is
`time.time() - session.call_start_time`. -/
def handleFunctionCall (age : ℚ) (s : SessionState) (name fid : Str) :
    SessionState × List Effect × Bool :=
  if s.languageCorrectionPending then
    (s, [Effect.funcResponse fid RespKind.ignoredResp], true)
  else if age < 10 then
    (s, [Effect.funcResponse fid RespKind.errorResp], true)
  else if name = ("transfer_call").toList then
    let allowTransfer :=
      if isExplicitTransferRequest s.lastUserText then true
      else if s.transferQuestionAsked ∧ s.transferQuestionAnswered then
        if isNegative s.lastTransferAnswerText then false else true
      else false
    if ¬ allowTransfer then
      (s, [Effect.funcResponse fid RespKind.errorResp], true)
    else
      ({ s with userWantsTransfer := some true, callEnding := true },
       [Effect.funcResponse fid RespKind.okResp], false)
  else if name = ("end_call").toList then
    let allowEnd := ¬ (¬ s.transferQuestionAsked ∧ age < 60)
    if ¬ allowEnd then
      (s, [Effect.funcResponse fid RespKind.errorResp], true)
    else
      ({ s with userWantsTransfer := some false, callEnding := true },
       [Effect.funcResponse fid RespKind.okResp], false)
  else (s, [], false)

/-- main.py reader loop, language-state update at a turn boundary
(lines 1132-1143): a Category-B utterance in Hindi or English replaces
the expected language; everything else leaves it unchanged. -/
def updateLangState (languageState : Str) (currentTurnUserText : Str) : Str :=
  let userText := pyStrip currentTurnUserText
  let lc := if ¬ userText.isEmpty then detectLanguage userText
            else (("unknown").toList, Category.A)
  if lc.2 = Category.B
      ∧ (lc.1 = ("hindi").toList ∨ lc.1 = ("english").toList) then lc.1
  else languageState

/-- main.py reader loop, tail of the turn-complete branch
(lines 1172-1222): reset the per-turn texts, then either finish the
pending call end, fire safety net A (transfer question asked and
answered), or fire safety net B (goodbye phrase after 30 seconds).
`hangup_sent` is set in the same synchronous step that schedules the
`_handle_call_end` task. -/
def turnCompleteTail (age : ℚ) (s : SessionState) :
    SessionState × List Effect × Bool :=
  let turnAgentText := pyStrip s.currentTurnAgentText
  let s := { s with currentTurnAgentText := [], currentTurnUserText := [] }
  if s.callEnding then
    ({ s with hangupSent := true }, [Effect.scheduleCallEnd], false)
  else if s.transferQuestionAsked ∧ s.transferQuestionAnswered then
    ({ s with userWantsTransfer := some false, callEnding := true,
              hangupSent := true }, [Effect.scheduleCallEnd], false)
  else if 30 < age ∧ isGoodbyeMessage (some turnAgentText) then
    ({ s with userWantsTransfer := some false, callEnding := true,
              hangupSent := true }, [Effect.scheduleCallEnd], false)
  else (s, [], false)

/-- main.py reader loop, turn-complete branch (lines 1093-1222):
clear a pending language correction, else detect the transfer question
in the accumulated agent turn text, run the language-mismatch check
(injecting a correction and skipping call-end logic on mismatch), and
otherwise fall through to the call-end tail. -/
def handleTurnComplete (age : ℚ) (s : SessionState) :
    SessionState × List Effect × Bool :=
  if s.languageCorrectionPending then
    ({ s with languageCorrectionPending := false,
              currentTurnAgentText := [], currentTurnUserText := [] },
     [], true)
  else
    let s :=
      if ¬ (pyStrip s.currentTurnAgentText).isEmpty
          ∧ isTransferQuestion (some (pyStrip s.currentTurnAgentText)) then
        { s with transferQuestionAsked := true,
                 transferQuestionAnswered := false,
                 lastTransferAnswerText := none }
      else s
    if ¬ (pyStrip s.currentTurnAgentText).isEmpty
        ∧ ¬ s.callEnding ∧ ¬ s.hangupSent then
      let agentLang := detectAgentLanguage s.currentTurnAgentText
      let s2 := { s with languageState :=
                    updateLangState s.languageState s.currentTurnUserText }
      if agentLang ≠ ("unknown").toList ∧ s2.languageState ≠ agentLang then
        ({ s2 with languageCorrectionPending := true,
                   currentTurnAgentText := [], currentTurnUserText := [] },
         [injectLanguageContext s2.languageState], true)
      else turnCompleteTail age s2
    else turnCompleteTail age s

/-- main.py reader loop, transcription capture (lines 1225-1244):
append to the conversation, remember the last utterance per speaker,
accumulate per-turn text, and record the first user utterance after the
transfer question as its answer. -/
def handleTranscriptionMsg (s : SessionState) (sp : Speaker) (text : Str) :
    SessionState :=
  let s := { s with conversation := s.conversation ++ [(sp, text)] }
  match sp with
  | Speaker.user =>
    let s := { s with lastUserText := some text,
                      currentTurnUserText := s.currentTurnUserText ++ ' ' :: text }
    if s.transferQuestionAsked ∧ ¬ s.transferQuestionAnswered then
      { s with transferQuestionAnswered := true,
               lastTransferAnswerText := some text }
    else s
  | Speaker.agent =>
    { s with lastAgentText := some text,
             currentTurnAgentText := s.currentTurnAgentText ++ ' ' :: text }

/-- One iteration of main.py `_gemini_reader` on one inbound message:
interruption clears and sends a clear event; function calls are handled
when the session is not already ending; turn-complete runs unless the
hangup was already scheduled; transcription is captured last. The early
`continue` of each phase skips the later phases. -/
def step (age : ℚ) (s : SessionState) (m : Msg) : SessionState × List Effect :=
  if m.interrupted then (s, [Effect.clearEvent])
  else
    let fc :=
      match m.funcCall with
      | some (name, fid) =>
        if ¬ s.hangupSent ∧ ¬ s.callEnding then handleFunctionCall age s name fid
        else (s, [], false)
      | none => (s, [], false)
    let s1 := fc.1
    if fc.2.2 then (s1, fc.2.1)
    else
      let tc :=
        if m.turnComplete ∧ ¬ s1.hangupSent then handleTurnComplete age s1
        else (s1, [], false)
      let s2 := tc.1
      if tc.2.2 then (s2, fc.2.1 ++ tc.2.1)
      else
        let s3 :=
          match m.transcription with
          | some (sp, text) => handleTranscriptionMsg s2 sp text
          | none => s2
        (s3, fc.2.1 ++ tc.2.1)

/-- Process a list of timestamped messages in order, collecting effects. -/
def runSteps (s : SessionState) (msgs : List (ℚ × Msg)) :
    SessionState × List Effect :=
  match msgs with
  | [] => (s, [])
  | (age, m) :: rest =>
    let r1 := step age s m
    let r2 := runSteps r1.1 rest
    (r2.1, r1.2 ++ r2.2)

/-- A fresh session state as created in `handle_client`: all call-control
flags clear, expected language hindi. -/
def initialSession : SessionState :=
  { callEnding := false, hangupSent := false, userWantsTransfer := none,
    transferQuestionAsked := false, transferQuestionAnswered := false,
    lastUserText := none, lastAgentText := none, lastTransferAnswerText := none,
    currentTurnAgentText := [], currentTurnUserText := [],
    languageState := ("hindi").toList, languageCorrectionPending := false,
    conversation := [] }

/-- Environment events that can interleave with the paced audio sender
while it is suspended at an await: the Gemini reader appending resampled
samples to the shared output buffer, or the barge-in handler clearing it. -/
inductive PacerEv
  | append (n : Nat)
  | clear
deriving DecidableEq, Repr

/-- Effect of one environment event on the output-buffer length. -/
def applyPacerEv (buf : Nat) : PacerEv → Nat
  | PacerEv.append n => buf + n
  | PacerEv.clear => 0

/-- Effect of a sequence of environment events on the buffer length. -/
def applyPacerEnv (buf : Nat) (env : List PacerEv) : Nat :=
  env.foldl applyPacerEv buf

/-- Control location of main.py `_audio_sender` between awaits: at the
loop head, suspended in the paced sleep until a wake time, suspended in
the websocket send with a popped chunk in flight, or suspended in the
5 ms idle poll. -/
inductive PacerPC
  | top
  | sleeping (wake : ℚ)
  | sending (n : Nat)
  | idling (wake : ℚ)
deriving DecidableEq, Repr

/-- State of the paced sender: control location, output-buffer length in
samples, `next_send_time` (None encoded as none) and the current
monotonic clock. -/
structure PacerSt where
  pc : PacerPC
  buffer : Nat
  nextT : Option ℚ
  now : ℚ
deriving DecidableEq, Repr

/-- Observable log of the sender: a completed send of n samples at a
time, or a pacing reset (the buffer dropped below one chunk and
`next_send_time` was set back to None). -/
inductive PacerLog
  | send (t : ℚ) (n : Nat)
  | reset
deriving DecidableEq, Repr

/-- Synchronous run from the loop head of `_audio_sender` to the next
await: with at least one chunk buffered, either sleep until
`next_send_time` (when it is set and in the future) or pop one chunk
and enter the websocket send; otherwise reset pacing and enter the 5 ms
idle poll. -/
def pacerAdvanceTop (chunk : Nat) (s : PacerSt) : PacerSt × List PacerLog :=
  if chunk ≤ s.buffer then
    match s.nextT with
    | some n =>
      if s.now < n then ({ s with pc := PacerPC.sleeping n }, [])
      else ({ s with pc := PacerPC.sending chunk, buffer := s.buffer - chunk }, [])
    | none => ({ s with pc := PacerPC.sending chunk, buffer := s.buffer - chunk }, [])
  else
    ({ s with pc := PacerPC.idling (s.now + 1/200), nextT := none },
     [PacerLog.reset])

/-- Completion of the await the sender is currently suspended in, with
the environment events that occurred during that await applied first:
the paced sleep wakes at its deadline and re-checks the buffer (aborting
the send on underrun, as the barge-in race demands); the websocket send
completes and delivers its in-flight chunk, then advances
`next_send_time` by one chunk duration with the anti-drift clamp; the
idle poll wakes and retries. Mirrors main.py lines 831-878. -/
def pacerStep (chunk : Nat) (dur : ℚ) (s : PacerSt) (env : List PacerEv) :
    PacerSt × List PacerLog :=
  let buf := applyPacerEnv s.buffer env
  match s.pc with
  | PacerPC.top => pacerAdvanceTop chunk { s with buffer := buf }
  | PacerPC.sleeping w =>
    let s := { s with buffer := buf, now := w }
    if buf < chunk then pacerAdvanceTop chunk { s with nextT := none }
    else ({ s with pc := PacerPC.sending chunk, buffer := buf - chunk }, [])
  | PacerPC.sending c =>
    let nextT :=
      match s.nextT with
      | none => some (s.now + dur)
      | some n =>
        if n + dur < s.now - dur then some (s.now + dur) else some (n + dur)
    let r := pacerAdvanceTop chunk { s with buffer := buf, nextT := nextT }
    (r.1, PacerLog.send s.now c :: r.2)
  | PacerPC.idling w =>
    pacerAdvanceTop chunk { s with buffer := buf, now := w }

/-- Run the sender through a list of awaits, each with its interleaved
environment events, collecting the log. -/
def runPacer (chunk : Nat) (dur : ℚ) (s : PacerSt) (envs : List (List PacerEv)) :
    PacerSt × List PacerLog :=
  match envs with
  | [] => (s, [])
  | env :: rest =>
    let r1 := pacerStep chunk dur s env
    let r2 := runPacer chunk dur r1.1 rest
    (r2.1, r1.2 ++ r2.2)

/-- Total samples delivered in a log. -/
def sentTotal (log : List PacerLog) : Nat :=
  (log.map (fun e => match e with | PacerLog.send _ n => n | PacerLog.reset => 0)).sum

/-- Samples already popped and in flight in the websocket send. -/
def inflight : PacerPC → Nat
  | PacerPC.sending c => c
  | _ => 0

/-- An environment event that is not an append. -/
def isAppendEv : PacerEv → Bool
  | PacerEv.append _ => true
  | PacerEv.clear => false

/-- The pacing discipline on a log: given an earliest allowed next send
time (none after a pacing reset), every send respects the bound and
commits the next send to one chunk duration later; a reset lifts the
bound. -/
def paced (dur : ℚ) : Option ℚ → List PacerLog → Prop
  | _, [] => True
  | bound, PacerLog.send t _ :: rest =>
    (∀ b, bound = some b → b ≤ t) ∧ paced dur (some (t + dur)) rest
  | _, PacerLog.reset :: rest => paced dur none rest

/-- Reachable-state invariant of the sender: a sleeping deadline equals
`next_send_time` and is ahead of the clock; an in-flight send is exactly
one chunk and was scheduled now or entered free; the idle poll and the
loop head hold no schedule. -/
def PacerInv (chunk : Nat) (s : PacerSt) : Prop :=
  match s.pc with
  | PacerPC.sleeping w => s.nextT = some w ∧ s.now ≤ w
  | PacerPC.sending c => c = chunk ∧ (s.nextT = none ∨ s.nextT = some s.now)
  | PacerPC.idling _ => s.nextT = none
  | PacerPC.top => s.nextT = none

/-- Earliest allowed next send time for a state. -/
def pacerBound (s : PacerSt) : Option ℚ :=
  match s.pc with
  | PacerPC.sleeping w => some w
  | PacerPC.sending _ => s.nextT
  | PacerPC.idling _ => none
  | PacerPC.top => none

/-- Initial sender state: loop head, no schedule. -/
def pacerInit (buffer : Nat) : PacerSt :=
  { pc := PacerPC.top, buffer := buffer, nextT := none, now := 0 }

/-- The int16-sample crossfade weight arithmetic of main.py lines
1281-1286: old * (1 - alpha) + new * alpha with alpha = k / 8,
exact in binary floating point and truncated toward zero by int(). -/
def blendSample (old new : ℤ) (k : Nat) : ℤ :=
  Int.tdiv (old * (8 - (k : ℤ)) + new * (k : ℤ)) 8

/-- One iteration of the in-place blend loop of main.py lines
1280-1286: blend position buf_len - 8 + i of the queue against new
sample i with weight (i + 1) / 8, guarded against negative indices. -/
def crossfadeStep (buffer newSamples buf : List ℤ) (i : Nat) : List ℤ :=
  let idx : ℤ := (buffer.length : ℤ) - 8 + (i : ℤ)
  if 0 ≤ idx then
    buf.set idx.toNat
      (blendSample (buf.getD idx.toNat 0) (newSamples.getD i 0) (i + 1))
  else buf

/-- The blend loop of main.py lines 1279-1286: for i below
min(8, buf_len), run one blend step. -/
def crossfadeBlend (buffer newSamples : List ℤ) : List ℤ :=
  (List.range (min 8 buffer.length)).foldl (crossfadeStep buffer newSamples) buffer

/-- main.py lines 1277-1289: append a resampled chunk to the output
queue with an 8-sample crossfade when the queue is non-empty and the
chunk is longer than the fade window, else append plainly. -/
def crossfadeAppend (buffer newSamples : List ℤ) : List ℤ :=
  if ¬ buffer.isEmpty ∧ 8 < newSamples.length then
    crossfadeBlend buffer newSamples ++ newSamples.drop 8
  else buffer ++ newSamples

/-- Pointwise effect of the blend loop of main.py lines 1280-1286 on a
queue shorter than the fade window, after the first m iterations: the
iteration writing queue position j is i = j + 8 - buf_len (the inverse
of idx = buf_len - 8 + i), so position j holds the blend of the old
sample against new sample j + 8 - buf_len once that iteration has run,
and the original sample before. -/
def shortBlendAt (buffer newSamples : List ℤ) (m j : Nat) : ℤ :=
  if j + 8 - buffer.length < m then
    blendSample (buffer.getD j 0)
      (newSamples.getD (j + 8 - buffer.length) 0)
      (j + 8 - buffer.length + 1)
  else buffer.getD j 0

/-- The collaborator calls of main.py `_save_call_data`
(lines 1648-1945), in source order. -/
inductive SaveEffect
  | fetchAgentConfig
  | saveTranscript
  | loadTranscript
  | geminiExtract
  | regexExtract
  | saveSiPayload
  | siWebhook
  | waybeoWebhook
  | generateSummary
  | pushAdmin
deriving DecidableEq, Repr

/-- Outcomes of the collaborators consulted by `_save_call_data`,
treated as oracles. -/
structure SaveEnv where
  saveTranscriptOk : Bool
  loadTranscriptOk : Bool
  hasGeminiApiKey : Bool
  hasAgentConfig : Bool
  hasSiEndpoint : Bool
  hasWaybeoEndpoint : Bool
deriving DecidableEq, Repr

/-- main.py `_save_call_data` as its sequence of collaborator calls:
returns immediately (no calls at all) when the call id is still the
placeholder or the conversation is empty; otherwise fetches the agent
config, saves and reloads the transcript (stopping on failure), runs
extraction, saves the SI payload, delivers the configured webhooks,
generates the summary, and pushes to the admin backend. -/
def saveCallData (ucid : Str) (conversation : List (Speaker × Str))
    (env : SaveEnv) : List SaveEffect :=
  if ucid = ("UNKNOWN").toList then []
  else if conversation.isEmpty then []
  else
    [SaveEffect.fetchAgentConfig, SaveEffect.saveTranscript] ++
    (if ¬ env.saveTranscriptOk then []
     else
       SaveEffect.loadTranscript ::
       (if ¬ env.loadTranscriptOk then []
        else
          (if env.hasGeminiApiKey then [SaveEffect.geminiExtract]
           else [SaveEffect.regexExtract]) ++
          [SaveEffect.saveSiPayload] ++
          (if env.hasAgentConfig ∧ env.hasSiEndpoint then [SaveEffect.siWebhook]
           else []) ++
          (if env.hasAgentConfig ∧ env.hasWaybeoEndpoint then
             [SaveEffect.waybeoWebhook]
           else []) ++
          (if env.hasGeminiApiKey then [SaveEffect.generateSummary] else []) ++
          [SaveEffect.pushAdmin]))

/-- Number of terminal-action tasks scheduled in an effect list. -/
def countSchedule (l : List Effect) : Nat :=
  l.countP (fun e => decide (e = Effect.scheduleCallEnd))

lemma step_tcMsg (age : ℚ) (s : SessionState) (hhs : s.hangupSent = false) :
    step age s tcMsg
      = ((handleTurnComplete age s).1, (handleTurnComplete age s).2.1) := by
  unfold step tcMsg
  simp [hhs]

lemma step_tcMsg_hangupSent (age : ℚ) (s : SessionState)
    (h : s.hangupSent = true) : step age s tcMsg = (s, []) := by
  unfold step tcMsg
  simp [h]

lemma runSteps_tcMsgs_hangupSent (s : SessionState) (ages : List ℚ)
    (h : s.hangupSent = true) :
    runSteps s (ages.map (fun a => (a, tcMsg))) = (s, []) := by
  induction ages with
  | nil => rfl
  | cons a rest ih =>
    unfold runSteps
    simp [step_tcMsg_hangupSent a s h, ih]

lemma handleTurnComplete_ending (age : ℚ) (s : SessionState)
    (hce : s.callEnding = true) (hp : s.languageCorrectionPending = false) :
    (handleTurnComplete age s).1.hangupSent = true
    ∧ (handleTurnComplete age s).2.1 = [Effect.scheduleCallEnd] := by
  unfold handleTurnComplete
  simp only [hp, Bool.false_eq_true, if_false]
  split <;> simp [hce, turnCompleteTail]

/-- C1: once the session has entered the goodbye-pending state
(call_ending set by an accepted transfer_call or end_call, hangup not
yet sent, no language correction pending), any run of one or more
turn-complete events schedules the `_handle_call_end` task exactly once,
and the `hangup_sent` idempotency flag is already set in the state
produced by the very step that schedules the task — synchronously,
before the asynchronous drain wait of that task can run — so a second
turn-complete can never schedule a duplicate. -/
theorem c1_goodbye_pending_exactly_one_terminal
    (s : SessionState) (ages : List ℚ)
    (hce : s.callEnding = true) (hhs : s.hangupSent = false)
    (hp : s.languageCorrectionPending = false) (hN : ages ≠ []) :
    countSchedule (runSteps s (ages.map (fun a => (a, tcMsg)))).2 = 1
    ∧ ∀ a : ℚ, (step a s tcMsg).1.hangupSent = true := by
  obtain ⟨a, rest, rfl⟩ : ∃ a rest, ages = a :: rest := by
    cases ages with
    | nil => exact absurd rfl hN
    | cons a rest => exact ⟨a, rest, rfl⟩
  have hstep := step_tcMsg a s hhs
  have hend := handleTurnComplete_ending a s hce hp
  constructor
  · have hrest := runSteps_tcMsgs_hangupSent (step a s tcMsg).1 rest
      (by rw [hstep]; exact hend.1)
    unfold runSteps
    simp only [List.map_cons]
    rw [hrest]
    rw [hstep, hend.2]
    simp [countSchedule]
  · intro b
    rw [step_tcMsg b s hhs]
    exact (handleTurnComplete_ending b s hce hp).1

/-- Witness for C1 at a concrete goodbye-pending state and three
turn-complete events. -/
theorem c1_witness :
    countSchedule (runSteps { initialSession with callEnding := true }
        (([(12 : ℚ), 13, 14]).map (fun a => (a, tcMsg)))).2 = 1
    ∧ ∀ a : ℚ,
        (step a { initialSession with callEnding := true } tcMsg).1.hangupSent
          = true :=
  c1_goodbye_pending_exactly_one_terminal
    { initialSession with callEnding := true } [12, 13, 14]
    rfl rfl rfl (by simp)

/-- C3 (amended): a function call arriving before the 10-second setup
grace period — while the session is Active and no language correction is
pending — is rejected with an error-carrying function response tagged
with the same correlation id, and the session state is entirely
unchanged. (While a language correction is pending the deflection guard
answers first and the response carries no error field; see the
counterexample.) -/
theorem c3_amended_grace_period_rejection (age : ℚ) (s : SessionState)
    (name fid : Str) (hAge : age < 10)
    (hp : s.languageCorrectionPending = false)
    (hce : s.callEnding = false) (hhs : s.hangupSent = false) :
    step age s (fcMsg name fid)
      = (s, [Effect.funcResponse fid RespKind.errorResp]) := by
  unfold step fcMsg handleFunctionCall
  simp [hp, hce, hhs, hAge]

/-- Witness for C3 (amended): a transfer_call at call age 3 seconds on a
fresh session. -/
theorem c3_amended_witness :
    step 3 initialSession (fcMsg ("transfer_call").toList ("fc1").toList)
      = (initialSession,
         [Effect.funcResponse ("fc1").toList RespKind.errorResp]) :=
  c3_amended_grace_period_rejection 3 initialSession
    ("transfer_call").toList ("fc1").toList (by norm_num) rfl rfl rfl

/-- C3 counterexample: with a language correction pending, a
transfer_call at call age 3 seconds is answered with the "ignored"
deflection response — which carries no error field — not with an error
rejection, refuting the claim as universally stated. -/
theorem c3_counterexample :
    (step 3 { initialSession with languageCorrectionPending := true }
        (fcMsg ("transfer_call").toList ("fc2").toList)).2
      = [Effect.funcResponse ("fc2").toList RespKind.ignoredResp]
    ∧ RespKind.ignoredResp ≠ RespKind.errorResp := by
  decide

lemma step_fcMsg (age : ℚ) (s : SessionState) (name fid : Str)
    (hhs : s.hangupSent = false) (hce : s.callEnding = false) :
    step age s (fcMsg name fid)
      = ((handleFunctionCall age s name fid).1,
         (handleFunctionCall age s name fid).2.1) := by
  unfold step fcMsg
  simp [hhs, hce]

lemma handleFunctionCall_transfer (age : ℚ) (s : SessionState) (fid : Str)
    (hp : s.languageCorrectionPending = false) (hAge : 10 ≤ age) :
    handleFunctionCall age s ("transfer_call").toList fid
      = if isExplicitTransferRequest s.lastUserText = true
            ∨ (s.transferQuestionAsked = true ∧ s.transferQuestionAnswered = true
               ∧ isNegative s.lastTransferAnswerText = false) then
          ({ s with userWantsTransfer := some true, callEnding := true },
           [Effect.funcResponse fid RespKind.okResp], false)
        else (s, [Effect.funcResponse fid RespKind.errorResp], true) := by
  unfold handleFunctionCall
  simp only [hp, Bool.false_eq_true, if_false, not_lt.mpr hAge]
  cases hE : isExplicitTransferRequest s.lastUserText
  case true => simp
  case false =>
    cases hA : s.transferQuestionAsked
    case false => simp
    case true =>
      cases hB : s.transferQuestionAnswered
      case false => simp
      case true =>
        cases hN : isNegative s.lastTransferAnswerText
        case true => simp
        case false => simp

/-- C4 (amended): for a transfer_call arriving after the grace period
while the session is Active and no language correction is pending, the
call is accepted (user_wants_transfer set true, call_ending set, ok
response) exactly when either the last caller utterance matches an
explicit transfer-request phrase, or the transfer question was asked and
answered and the recorded answer is not lexically negative; in
particular a negative recorded answer without an explicit transfer
phrase is always rejected with an error response and no state change.
(While a language correction is pending even an explicit request is
deflected; see the counterexample.) -/
theorem c4_transfer_guard (age : ℚ) (s : SessionState) (fid : Str)
    (hAge : 10 ≤ age) (hp : s.languageCorrectionPending = false)
    (hce : s.callEnding = false) (hhs : s.hangupSent = false) :
    (step age s (fcMsg ("transfer_call").toList fid)
        = ({ s with userWantsTransfer := some true, callEnding := true },
           [Effect.funcResponse fid RespKind.okResp])
      ↔ (isExplicitTransferRequest s.lastUserText = true
         ∨ (s.transferQuestionAsked = true ∧ s.transferQuestionAnswered = true
            ∧ isNegative s.lastTransferAnswerText = false)))
    ∧ ((isNegative s.lastTransferAnswerText = true
        ∧ isExplicitTransferRequest s.lastUserText = false) →
       step age s (fcMsg ("transfer_call").toList fid)
         = (s, [Effect.funcResponse fid RespKind.errorResp])) := by
  rw [step_fcMsg age s _ fid hhs hce, handleFunctionCall_transfer age s fid hp hAge]
  constructor
  · split
    case isTrue hC => simp [hC]
    case isFalse hC => simp [hC]
  · rintro ⟨hNeg, hE⟩
    rw [if_neg]
    rintro (h1 | ⟨-, -, h3⟩)
    · exact absurd h1 (by simp [hE])
    · exact absurd h3 (by simp [hNeg])

/-- A session where the transfer question was asked and the recorded
answer was "nahi". -/
def sessionAnsweredNahi : SessionState :=
  { initialSession with
      transferQuestionAsked := true
      transferQuestionAnswered := true
      lastTransferAnswerText := some ("nahi").toList }

/-- Witness for C4: with the transfer question answered "nahi" and no
explicit transfer phrase, a transfer_call at call age 20 is rejected
with an error response and no state change. -/
theorem c4_transfer_guard_witness :
    step 20 sessionAnsweredNahi (fcMsg ("transfer_call").toList ("fc3").toList)
      = (sessionAnsweredNahi,
         [Effect.funcResponse ("fc3").toList RespKind.errorResp]) :=
  (c4_transfer_guard 20 sessionAnsweredNahi ("fc3").toList (by norm_num) rfl
      rfl rfl).2 (by constructor <;> decide)

/-- A session with a language correction pending whose caller just used
an explicit transfer-request phrase. -/
def sessionPendingExplicit : SessionState :=
  { initialSession with
      languageCorrectionPending := true
      lastUserText := some ("connect me to sales please").toList }

/-- C4 counterexample: at call age 20 seconds with the last caller
utterance an explicit transfer request, but with a language correction
pending, the transfer_call is NOT accepted — it is deflected with the
"ignored" response and no state change — refuting the clause "in which
case it is accepted" of the claim. -/
theorem c4_counterexample :
    isExplicitTransferRequest sessionPendingExplicit.lastUserText = true
    ∧ step 20 sessionPendingExplicit
        (fcMsg ("transfer_call").toList ("fc4").toList)
      = (sessionPendingExplicit,
         [Effect.funcResponse ("fc4").toList RespKind.ignoredResp]) := by
  constructor
  · decide
  · decide

/-- C9 (amended): an end_call arriving after the grace period while the
session is Active and no language correction is pending is accepted
(call_ending set, user_wants_transfer set false, ok response) whenever
the transfer question has been asked at any point or the call age is at
least 60 seconds. (While a language correction is pending the call is
deflected instead; see the counterexample.) -/
theorem c9_end_call_acceptance (age : ℚ) (s : SessionState) (fid : Str)
    (hAge : 10 ≤ age) (hp : s.languageCorrectionPending = false)
    (hce : s.callEnding = false) (hhs : s.hangupSent = false)
    (hOk : s.transferQuestionAsked = true ∨ 60 ≤ age) :
    step age s (fcMsg ("end_call").toList fid)
      = ({ s with userWantsTransfer := some false, callEnding := true },
         [Effect.funcResponse fid RespKind.okResp]) := by
  rw [step_fcMsg age s _ fid hhs hce]
  unfold handleFunctionCall
  simp only [hp, Bool.false_eq_true, if_false, not_lt.mpr hAge]
  have hname : ¬ (("end_call").toList = ("transfer_call").toList) := by decide
  rcases hOk with hQ | h60
  · simp [hname, hQ]
  · simp [hname, not_lt.mpr h60]

/-- The accepted end_call outcome on a fresh session. -/
def sessionEndAccepted : SessionState :=
  { initialSession with userWantsTransfer := some false, callEnding := true }

/-- Witness for C9: an end_call at call age 70 seconds with the transfer
question never asked is accepted. -/
theorem c9_end_call_acceptance_witness :
    step 70 initialSession (fcMsg ("end_call").toList ("fc5").toList)
      = (sessionEndAccepted,
         [Effect.funcResponse ("fc5").toList RespKind.okResp]) :=
  c9_end_call_acceptance 70 initialSession ("fc5").toList (by norm_num) rfl
    rfl rfl (Or.inr (by norm_num))

/-- A fresh session with a language correction pending. -/
def sessionPendingFresh : SessionState :=
  { initialSession with languageCorrectionPending := true }

/-- C9 counterexample: an end_call at call age 70 seconds — beyond both
thresholds — is NOT accepted when a language correction is pending: the
deflection guard answers with "ignored" and call_ending stays false,
refuting "an end_call arriving at call age at least 60s is always
accepted". -/
theorem c9_counterexample :
    step 70 sessionPendingFresh (fcMsg ("end_call").toList ("fc6").toList)
      = (sessionPendingFresh,
         [Effect.funcResponse ("fc6").toList RespKind.ignoredResp]) := by
  decide

lemma turnCompleteTail_sched (age : ℚ) (s : SessionState)
    (hce : s.callEnding = false) :
    (turnCompleteTail age s).2.1 = [Effect.scheduleCallEnd]
      ↔ ((s.transferQuestionAsked = true ∧ s.transferQuestionAnswered = true)
         ∨ (30 < age
            ∧ isGoodbyeMessage (some (pyStrip s.currentTurnAgentText)) = true)) := by
  unfold turnCompleteTail
  simp only [hce, Bool.false_eq_true, if_false]
  by_cases hA : s.transferQuestionAsked = true ∧ s.transferQuestionAnswered = true
  · simp [hA]
  · by_cases hG : 30 < age
        ∧ isGoodbyeMessage (some (pyStrip s.currentTurnAgentText)) = true
    · simp [hA, hG]
    · simp [hA, hG]

/-- A session where the transfer question has been asked and answered,
the last agent turn text is a non-goodbye Hindi phrase, and nothing
is pending. -/
def sessionAnsweredMidCall : SessionState :=
  { initialSession with
      transferQuestionAsked := true
      transferQuestionAnswered := true
      lastTransferAnswerText := some ("haan").toList
      currentTurnAgentText := ("theek hai ji").toList }

/-- C5 counterexample: at call age 20 seconds — below the 30-second
threshold — with the transfer question asked and answered, a
turn-complete whose agent text is NOT a goodbye phrase nonetheless
schedules the terminal action (safety net A has no age threshold and no
goodbye requirement), refuting "before that threshold no implicit-end
transition occurs". -/
theorem c5_counterexample :
    (step 20 sessionAnsweredMidCall tcMsg).2 = [Effect.scheduleCallEnd]
    ∧ (step 20 sessionAnsweredMidCall tcMsg).1.callEnding = true
    ∧ isGoodbyeMessage
        (some (pyStrip sessionAnsweredMidCall.currentTurnAgentText)) = false
    ∧ ((20 : ℚ) < 30) := by
  refine ⟨by decide, by decide, by decide, by norm_num⟩

/-- C5 (amended): at a turn-complete while the session is Active (not
ending, no correction pending, no transfer question detected in this
turn, and no language mismatch), the terminal action is scheduled if and
only if EITHER the transfer question was asked and answered — at any
call age, with no goodbye phrase required (safety net A) — OR the call
is older than 30 seconds and the agent turn text is a goodbye phrase
(safety net B). The 30-second/goodbye guard of the claim applies only to the
second disjunct. -/
theorem c5_implicit_end (age : ℚ) (s : SessionState)
    (hp : s.languageCorrectionPending = false)
    (hce : s.callEnding = false) (hhs : s.hangupSent = false)
    (hTQ : isTransferQuestion (some (pyStrip s.currentTurnAgentText)) = false)
    (hNM : (pyStrip s.currentTurnAgentText).isEmpty = true
        ∨ detectAgentLanguage s.currentTurnAgentText = ("unknown").toList
        ∨ detectAgentLanguage s.currentTurnAgentText
            = updateLangState s.languageState s.currentTurnUserText) :
    (step age s tcMsg).2 = [Effect.scheduleCallEnd]
      ↔ ((s.transferQuestionAsked = true ∧ s.transferQuestionAnswered = true)
         ∨ (30 < age
            ∧ isGoodbyeMessage (some (pyStrip s.currentTurnAgentText)) = true)) := by
  rw [step_tcMsg age s hhs]
  cases hE : (pyStrip s.currentTurnAgentText).isEmpty with
  | true =>
    have hred : (handleTurnComplete age s).2.1 = (turnCompleteTail age s).2.1 := by
      unfold handleTurnComplete
      simp [hp, hTQ, hE]
    rw [hred]
    exact turnCompleteTail_sched age s hce
  | false =>
    rcases hNM with hE2 | hU | hM
    · rw [hE] at hE2
      exact absurd hE2 (by simp)
    · have hred : (handleTurnComplete age s).2.1
          = (turnCompleteTail age
              { s with languageState :=
                  updateLangState s.languageState s.currentTurnUserText }).2.1 := by
        unfold handleTurnComplete
        simp [hp, hTQ, hE, hce, hhs, hU]
      rw [hred]
      have htail := turnCompleteTail_sched age
        { s with languageState := updateLangState s.languageState s.currentTurnUserText }
        (by simpa using hce)
      simpa using htail
    · have hred : (handleTurnComplete age s).2.1
          = (turnCompleteTail age
              { s with languageState :=
                  updateLangState s.languageState s.currentTurnUserText }).2.1 := by
        unfold handleTurnComplete
        simp [hp, hTQ, hE, hce, hhs, hM]
      rw [hred]
      have htail := turnCompleteTail_sched age
        { s with languageState := updateLangState s.languageState s.currentTurnUserText }
        (by simpa using hce)
      simpa using htail

/-- A session where the transfer question has been asked and answered
and the per-turn texts are empty. -/
def sessionAnsweredQuiet : SessionState :=
  { initialSession with
      transferQuestionAsked := true
      transferQuestionAnswered := true }

/-- Witness for C5 (amended): net A fires at call age 20 with an empty
agent turn text. -/
theorem c5_implicit_end_witness :
    (step 20 sessionAnsweredQuiet tcMsg).2 = [Effect.scheduleCallEnd] :=
  (c5_implicit_end 20 sessionAnsweredQuiet
      rfl rfl rfl (by decide) (Or.inl (by decide))).mpr (Or.inl ⟨rfl, rfl⟩)

lemma handleTranscriptionMsg_pending (s : SessionState) (sp : Speaker)
    (text : Str) :
    (handleTranscriptionMsg s sp text).languageCorrectionPending
      = s.languageCorrectionPending := by
  cases sp
  · simp only [handleTranscriptionMsg]
    split <;> rfl
  · rfl

/-- C6 (spec-modelled injection): at a turn boundary where the
accumulated agent turn language is known and differs from the expected
language state (after the user update of this turn), with the call not
ending, the monitor sets languageCorrectionPending and emits the
one-shot corrective text turn for the expected language; the pending
flag then survives transcription messages and function-call messages
(which are deflected), and is cleared exactly at the next turn-complete,
which performs no other action. -/
theorem c6_language_correction_lifecycle
    (age1 age2 age3 age4 : ℚ) (s s2 : SessionState) (sp : Speaker)
    (text name fid : Str)
    (hp : s.languageCorrectionPending = false)
    (hce : s.callEnding = false) (hhs : s.hangupSent = false)
    (hA : (pyStrip s.currentTurnAgentText).isEmpty = false)
    (hL1 : detectAgentLanguage s.currentTurnAgentText ≠ ("unknown").toList)
    (hL2 : detectAgentLanguage s.currentTurnAgentText
        ≠ updateLangState s.languageState s.currentTurnUserText)
    (hp2 : s2.languageCorrectionPending = true) (hhs2 : s2.hangupSent = false) :
    ((step age1 s tcMsg).1.languageCorrectionPending = true
      ∧ (step age1 s tcMsg).2
          = [injectLanguageContext
              (updateLangState s.languageState s.currentTurnUserText)])
    ∧ (step age2 s2 { transcription := some (sp, text) }).1.languageCorrectionPending
        = true
    ∧ (step age3 s2 (fcMsg name fid)).1.languageCorrectionPending = true
    ∧ step age4 s2 tcMsg
        = ({ s2 with languageCorrectionPending := false,
                     currentTurnAgentText := [], currentTurnUserText := [] },
           []) := by
  refine ⟨?_, ?_, ?_, ?_⟩
  · rw [step_tcMsg age1 s hhs]
    have hL2b : ¬ updateLangState s.languageState s.currentTurnUserText
        = detectAgentLanguage s.currentTurnAgentText := fun h => hL2 h.symm
    unfold handleTurnComplete
    split
    case isTrue hpend => exact absurd hp (by simp [hpend])
    case isFalse hpend =>
      split
      · rw [if_pos ?_, if_pos ?_]
        · constructor
          · simp
          · simp [injectLanguageContext]
        · refine ⟨by simpa using hL1, by simpa using hL2b⟩
        · simpa using ⟨by simpa using hA, by simp [hce], by simp [hhs]⟩
      · rw [if_pos ?_, if_pos ?_]
        · constructor
          · simp
          · simp [injectLanguageContext]
        · refine ⟨by simpa using hL1, by simpa using hL2b⟩
        · simpa using ⟨by simpa using hA, by simp [hce], by simp [hhs]⟩
  · unfold step
    simp [handleTranscriptionMsg_pending, hp2]
  · unfold step fcMsg
    by_cases hce2 : s2.callEnding = true
    · simp [hce2, hp2]
    · simp only [Bool.not_eq_true] at hce2
      simp [hce2, hhs2, handleFunctionCall, hp2]
  · rw [step_tcMsg age4 s2 hhs2]
    unfold handleTurnComplete
    simp [hp2]

/-- A session whose agent turn text is an English sentence while the
expected language is hindi. -/
def sessionEnglishDrift : SessionState :=
  { initialSession with
      currentTurnAgentText :=
        ("we have many great cars for you today friend").toList }

/-- Witness for C6 at a concrete drifted session. -/
theorem c6_language_correction_witness :
    ((step 40 sessionEnglishDrift tcMsg).1.languageCorrectionPending = true
      ∧ (step 40 sessionEnglishDrift tcMsg).2
          = [injectLanguageContext
              (updateLangState sessionEnglishDrift.languageState
                sessionEnglishDrift.currentTurnUserText)])
    ∧ (step 41 sessionPendingFresh
        { transcription := some (Speaker.user, ("haan").toList) }).1.languageCorrectionPending
        = true
    ∧ (step 42 sessionPendingFresh
        (fcMsg ("transfer_call").toList ("fc7").toList)).1.languageCorrectionPending
        = true
    ∧ step 43 sessionPendingFresh tcMsg
        = ({ sessionPendingFresh with languageCorrectionPending := false,
                                      currentTurnAgentText := [],
                                      currentTurnUserText := [] },
           []) :=
  c6_language_correction_lifecycle 40 41 42 43 sessionEnglishDrift
    sessionPendingFresh Speaker.user ("haan").toList
    ("transfer_call").toList ("fc7").toList
    rfl rfl rfl (by decide) (by decide) (by decide) rfl rfl

lemma isDigit_lowerChar (c : Char) : (lowerChar c).isDigit = c.isDigit := by
  unfold lowerChar
  split <;> rfl

lemma ws_not_digit (c : Char) (h : c.isWhitespace = true) : c.isDigit = false := by
  simp [Char.isWhitespace] at h
  rcases h with ((rfl | rfl) | rfl) | rfl <;> rfl

lemma countP_digit_dropWhile (s : Str) :
    (s.dropWhile Char.isWhitespace).countP (fun c => c.isDigit)
      = s.countP (fun c => c.isDigit) := by
  induction s with
  | nil => rfl
  | cons c t ih =>
    by_cases h : c.isWhitespace = true
    · rw [List.dropWhile_cons]
      simp [h, ih, List.countP_cons, ws_not_digit c h]
    · rw [List.dropWhile_cons]
      simp [h]

lemma digitCount_pyStrip (s : Str) : digitCount (pyStrip s) = digitCount s := by
  unfold pyStrip digitCount
  rw [List.countP_reverse, countP_digit_dropWhile, List.countP_reverse,
    countP_digit_dropWhile]

lemma digitCount_pyLower (s : Str) : digitCount (pyLower s) = digitCount s := by
  induction s with
  | nil => rfl
  | cons c t ih =>
    unfold digitCount pyLower at ih ⊢
    simp only [List.map_cons, List.countP_cons, isDigit_lowerChar, ih]

lemma digitCount_pos_ne_nil (s : Str) (h : 1 ≤ digitCount s) :
    s.isEmpty = false := by
  cases s with
  | nil => exact absurd h (by simp [digitCount])
  | cons c t => rfl

lemma isDataResponse_of_digits (text : Str) (h : 7 ≤ digitCount text) :
    isDataResponse text = true := by
  have h7 : 7 ≤ digitCount (pyStrip (pyLower text)) := by
    rw [digitCount_pyStrip, digitCount_pyLower]
    exact h
  have hne : (pyStrip (pyLower text)).isEmpty = false :=
    digitCount_pos_ne_nil _ (le_trans (by norm_num) h7)
  unfold isDataResponse
  simp only [hne, Bool.false_eq_true, if_false]
  split
  · rfl
  split
  · rfl
  split
  · rfl
  split
  · rfl
  exact decide_eq_true h7

lemma detectLanguage_catA_of_digits (text : Str) (h : 7 ≤ digitCount text) :
    (detectLanguage text).2 = Category.A := by
  have hne : (pyStrip text).isEmpty = false := by
    apply digitCount_pos_ne_nil
    rw [digitCount_pyStrip]
    exact le_trans (by norm_num) h
  unfold detectLanguage
  simp only [hne, Bool.false_eq_true, if_false]
  split
  · rfl
  · simp [isDataResponse_of_digits text h]

lemma updateLangState_of_digits (st userText : Str)
    (h : 7 ≤ digitCount userText) : updateLangState st userText = st := by
  have h7 : 7 ≤ digitCount (pyStrip userText) := by
    rw [digitCount_pyStrip]
    exact h
  have hne : (pyStrip userText).isEmpty = false :=
    digitCount_pos_ne_nil _ (le_trans (by norm_num) h7)
  have hcat := detectLanguage_catA_of_digits (pyStrip userText) h7
  unfold updateLangState
  simp [hne, hcat]

/-- C7 (amended): an utterance containing 7 or more digit characters
(the phone-number threshold of the code, not 5) is always classified as a
data response: `_is_data_response` is true, `_detect_language` returns
category A (the data-response category), and the turn-boundary language
update leaves the expected language unchanged. The 5-digit
threshold of the claim fails on the code; see the counterexample. -/
theorem c7_phone_number_data_response (text st : Str)
    (h : 7 ≤ digitCount text) :
    isDataResponse text = true
    ∧ (detectLanguage text).2 = Category.A
    ∧ updateLangState st text = st :=
  ⟨isDataResponse_of_digits text h, detectLanguage_catA_of_digits text h,
   updateLangState_of_digits st text h⟩

/-- Witness for C7 (amended) at a 10-digit phone number. -/
theorem c7_phone_number_witness :
    isDataResponse ("9876543210").toList = true
    ∧ (detectLanguage ("9876543210").toList).2 = Category.A
    ∧ updateLangState ("hindi").toList ("9876543210").toList
        = ("hindi").toList :=
  c7_phone_number_data_response ("9876543210").toList ("hindi").toList
    (by decide)

/-- C7 counterexample: the utterance "my number is 98765" contains a
phone-number-like digit string of 5 digits, yet `_is_data_response` is
false (its digit threshold is 7), `_detect_language` classifies it as an
English sentence (category B), and processing it at a turn boundary
flips the expected language from hindi to english — refuting the
5-digit threshold of the claim and its language-stability consequence. -/
theorem c7_counterexample :
    (5 ≤ digitCount ("my number is 98765").toList
      ∧ containsSub ("my number is 98765").toList ("98765").toList = true)
    ∧ isDataResponse ("my number is 98765").toList = false
    ∧ detectLanguage ("my number is 98765").toList
        = (("english").toList, Category.B)
    ∧ updateLangState ("hindi").toList ("my number is 98765").toList
        = ("english").toList := by
  refine ⟨⟨by decide, by decide⟩, by decide, by decide, by decide⟩

lemma crossfadeBlend_fold (buffer newSamples : List ℤ) (h : 8 ≤ buffer.length)
    (m : Nat) (hm : m ≤ 8) :
    (List.range m).foldl (crossfadeStep buffer newSamples) buffer
      = buffer.take (buffer.length - 8)
        ++ (List.range m).map (fun i =>
            blendSample (buffer.getD (buffer.length - 8 + i) 0)
              (newSamples.getD i 0) (i + 1))
        ++ buffer.drop (buffer.length - 8 + m) := by
  induction m with
  | zero => simp
  | succ m ih =>
    have hm8 : m ≤ 8 := Nat.le_of_succ_le hm
    rw [List.range_succ, List.foldl_append, ih hm8]
    simp only [List.foldl_cons, List.foldl_nil]
    unfold crossfadeStep
    have hidx : (0:ℤ) ≤ (buffer.length : ℤ) - 8 + (m : ℤ) := by omega
    have hj : ((buffer.length : ℤ) - 8 + (m : ℤ)).toNat = buffer.length - 8 + m := by
      omega
    rw [if_pos hidx, hj]
    set tk := buffer.take (buffer.length - 8) with htk
    set mp := (List.range m).map (fun i =>
        blendSample (buffer.getD (buffer.length - 8 + i) 0)
          (newSamples.getD i 0) (i + 1)) with hmp
    have hlen1 : tk.length = buffer.length - 8 := by simp [htk]
    have hlen2 : mp.length = m := by simp [hmp]
    have hjL : buffer.length - 8 + m < buffer.length := by omega
    have hdrop : buffer.drop (buffer.length - 8 + m)
        = buffer[buffer.length - 8 + m] :: buffer.drop (buffer.length - 8 + m + 1) :=
      List.drop_eq_getElem_cons hjL
    have hlen12 : (tk ++ mp).length = buffer.length - 8 + m := by
      simp [hlen1, hlen2]
    have hsub : buffer.length - 8 + m - tk.length = m := by
      rw [hlen1]
      omega
    have hget : (tk ++ mp ++ buffer.drop (buffer.length - 8 + m)).getD
        (buffer.length - 8 + m) 0 = buffer.getD (buffer.length - 8 + m) 0 := by
      rw [List.append_assoc,
        List.getD_append_right _ _ _ _ (by rw [hlen1]; omega), hsub,
        List.getD_append_right _ _ _ _ (le_of_eq hlen2), hlen2,
        Nat.sub_self, hdrop, List.getD_cons_zero]
      exact (List.getD_eq_getElem buffer 0 hjL).symm
    rw [hget, List.set_append, if_neg (by simp [hlen12]), hlen12, Nat.sub_self,
      hdrop, List.set_cons_zero, List.map_append]
    have hstep : buffer.length - 8 + m + 1 = buffer.length - 8 + (m + 1) := by omega
    rw [hstep]
    simp only [List.append_assoc, List.map_cons, List.map_nil,
      List.singleton_append, List.cons_append, List.nil_append]

lemma crossfadeBlend_spec (buffer newSamples : List ℤ) (h : 8 ≤ buffer.length) :
    crossfadeBlend buffer newSamples
      = buffer.take (buffer.length - 8)
        ++ (List.range 8).map (fun i =>
            blendSample (buffer.getD (buffer.length - 8 + i) 0)
              (newSamples.getD i 0) (i + 1)) := by
  unfold crossfadeBlend
  rw [Nat.min_eq_left h, crossfadeBlend_fold buffer newSamples h 8 le_rfl]
  have hL : buffer.length - 8 + 8 = buffer.length := by omega
  rw [hL, List.drop_length, List.append_nil]

lemma crossfadeBlend_fold_short (buffer newSamples : List ℤ)
    (h : buffer.length < 8) (m : Nat) (hm : m ≤ buffer.length) :
    (List.range m).foldl (crossfadeStep buffer newSamples) buffer
      = (List.range buffer.length).map (shortBlendAt buffer newSamples m) := by
  induction m with
  | zero =>
    simp only [List.range_zero, List.foldl_nil]
    apply List.ext_getElem
    · simp
    · intro n h1 h2
      simp only [List.getElem_map, List.getElem_range, shortBlendAt]
      rw [if_neg (by omega)]
      exact (List.getD_eq_getElem buffer 0 h1).symm
  | succ m ih =>
    have hm8 : m ≤ buffer.length := Nat.le_of_succ_le hm
    rw [List.range_succ, List.foldl_append, ih hm8]
    simp only [List.foldl_cons, List.foldl_nil]
    unfold crossfadeStep
    by_cases hcase : 8 ≤ m + buffer.length
    · have hidx : (0:ℤ) ≤ (buffer.length : ℤ) - 8 + (m : ℤ) := by omega
      have hj : ((buffer.length : ℤ) - 8 + (m : ℤ)).toNat
          = m + buffer.length - 8 := by
        omega
      rw [if_pos hidx, hj]
      have hj0 : m + buffer.length - 8 < buffer.length := by omega
      have hgd : (List.map (shortBlendAt buffer newSamples m)
          (List.range buffer.length)).getD (m + buffer.length - 8) 0
          = buffer.getD (m + buffer.length - 8) 0 := by
        rw [List.getD_eq_getElem _ 0 (by simpa using hj0)]
        simp only [List.getElem_map, List.getElem_range, shortBlendAt]
        rw [if_neg (by omega)]
      rw [hgd]
      apply List.ext_getElem
      · simp
      · intro n h1 h2
        have hn : n < buffer.length := by simpa using h2
        rcases eq_or_ne n (m + buffer.length - 8) with heq | hne
        · subst heq
          rw [List.getElem_set_self (by simpa using hj0)]
          simp only [List.getElem_map, List.getElem_range, shortBlendAt]
          rw [if_pos (by omega)]
          have he1 : m + buffer.length - 8 + 8 - buffer.length = m := by omega
          rw [he1]
        · rw [List.getElem_set_ne (Ne.symm hne)]
          simp only [List.getElem_map, List.getElem_range, shortBlendAt]
          by_cases hc : n + 8 - buffer.length < m
          · rw [if_pos hc, if_pos (by omega)]
          · rw [if_neg hc, if_neg (by omega)]
    · have hidx : ¬ (0:ℤ) ≤ (buffer.length : ℤ) - 8 + (m : ℤ) := by omega
      rw [if_neg hidx]
      apply List.ext_getElem
      · simp
      · intro n h1 h2
        simp only [List.getElem_map, List.getElem_range, shortBlendAt]
        by_cases hc : n + 8 - buffer.length < m
        · rw [if_pos hc, if_pos (by omega)]
        · rw [if_neg hc, if_neg (by omega)]

lemma crossfadeBlend_short (buffer newSamples : List ℤ)
    (h : buffer.length < 8) :
    crossfadeBlend buffer newSamples
      = (List.range buffer.length).map
          (shortBlendAt buffer newSamples buffer.length) := by
  unfold crossfadeBlend
  rw [Nat.min_eq_right (le_of_lt h)]
  exact crossfadeBlend_fold_short buffer newSamples h buffer.length le_rfl

/-- C8 (amended): appending a resampled chunk to the output queue. The
claimed blend-and-append behaviour holds only when the queue holds at
least the 8-sample fade window: then, for a chunk longer than the
window, the last 8 queued samples are replaced by the linear blend of
the old sample at position len - 8 + i against new sample i with weight
(i + 1) / 8 — rising strictly to weight 1, where the blended value is
exactly the new sample — and only the chunk remainder beyond the
window is appended. A chunk shorter than the window is appended plainly
with no blending. When the queue is non-empty but shorter than the
window and the chunk is longer than the window, the behaviour diverges
from the claim: the negative-index guard of main.py line 1284 skips
every iteration whose write index buf_len - 8 + i is negative, so
queue position j is blended only against new sample j + 8 - buf_len
(no blending at all when buf_len is at most 4), yet the append still
keeps only the chunk beyond the window, silently discarding the first
8 new samples; the in-scope failure of the original claim is the
counterexample. -/
theorem c8_crossfade_append (buffer newSamples : List ℤ)
    (h8 : 8 ≤ buffer.length) (hN : 8 < newSamples.length) :
    crossfadeAppend buffer newSamples
      = buffer.take (buffer.length - 8)
        ++ (List.range 8).map (fun i =>
            blendSample (buffer.getD (buffer.length - 8 + i) 0)
              (newSamples.getD i 0) (i + 1))
        ++ newSamples.drop 8
    ∧ (∀ buf2 new2 : List ℤ, new2.length < 8 →
        crossfadeAppend buf2 new2 = buf2 ++ new2)
    ∧ (∀ old new : ℤ, blendSample old new 8 = new)
    ∧ (∀ bufS newS : List ℤ, bufS ≠ [] → bufS.length < 8 →
        8 < newS.length →
        crossfadeAppend bufS newS
          = (List.range bufS.length).map
              (shortBlendAt bufS newS bufS.length)
            ++ newS.drop 8) := by
  refine ⟨?_, ?_, ?_, ?_⟩
  · have hne : buffer.isEmpty = false := by
      cases buffer with
      | nil => exact absurd h8 (by simp)
      | cons c t => rfl
    unfold crossfadeAppend
    rw [if_pos (by simp [hne, hN])]
    rw [crossfadeBlend_spec buffer newSamples h8]
  · intro buf2 new2 hlt
    unfold crossfadeAppend
    rw [if_neg]
    rintro ⟨-, hgt⟩
    omega
  · intro old new
    unfold blendSample
    simp [Int.mul_tdiv_cancel]
  · intro bufS newS hne hlt hgt
    unfold crossfadeAppend
    rw [if_pos (by simp [List.isEmpty_iff, hne, hgt])]
    rw [crossfadeBlend_short bufS newS hlt]

/-- Witness for C8: blending a queue of eight samples of value 16
against a nine-sample chunk starting with eight zeros, plain append of
a short chunk, and the shifted partial blend of a five-sample queue:
only positions 0 and 1 are blended, against new samples 3 and 4 with
weights 4/8 and 5/8, and the first eight new samples are dropped. -/
theorem c8_crossfade_append_witness :
    crossfadeAppend [16, 16, 16, 16, 16, 16, 16, 16]
        [0, 0, 0, 0, 0, 0, 0, 0, 40]
      = [14, 12, 10, 8, 6, 4, 2, 0, 40]
    ∧ crossfadeAppend ([5, 6] : List ℤ) [7, 8, 9] = [5, 6, 7, 8, 9]
    ∧ crossfadeAppend [80, 80, 0, 0, 0]
        [96, 96, 96, 96, 96, 96, 96, 96, 99]
      = [88, 90, 0, 0, 0, 99] :=
  ⟨(c8_crossfade_append [16, 16, 16, 16, 16, 16, 16, 16]
        [0, 0, 0, 0, 0, 0, 0, 0, 40] (by decide) (by decide)).1.trans
      (by decide),
   (c8_crossfade_append [16, 16, 16, 16, 16, 16, 16, 16]
        [0, 0, 0, 0, 0, 0, 0, 0, 40] (by decide) (by decide)).2.1
      [5, 6] [7, 8, 9] (by decide),
   ((c8_crossfade_append [16, 16, 16, 16, 16, 16, 16, 16]
        [0, 0, 0, 0, 0, 0, 0, 0, 40] (by decide) (by decide)).2.2.2
      [80, 80, 0, 0, 0] [96, 96, 96, 96, 96, 96, 96, 96, 99]
      (by decide) (by decide) (by decide)).trans (by decide)⟩

/-- Counterexample for C8 as originally stated: a non-empty queue of
two samples with a nine-sample chunk. Every write index
buf_len - 8 + i of the blend loop is negative, so the guard skips all
blending and the queue is untouched, yet the append keeps only the
chunk beyond the fade window: the first eight new samples 1..8 vanish
and the result is [5, 6, 99]. The queued samples are not blended
against the first new samples, and the dropped samples are appended
nowhere, contradicting the claimed behaviour for non-empty queues
shorter than the window. -/
theorem c8_counterexample :
    crossfadeAppend [5, 6] [1, 2, 3, 4, 5, 6, 7, 8, 99] = [5, 6, 99] := by
  decide

/-- All collaborators succeeding / configured. -/
def saveEnvAll : SaveEnv :=
  { saveTranscriptOk := true, loadTranscriptOk := true,
    hasGeminiApiKey := true, hasAgentConfig := true,
    hasSiEndpoint := true, hasWaybeoEndpoint := true }

/-- C10: when the call id is still the placeholder "UNKNOWN" or the
transcript sequence is empty, the finalize/persist pass is a complete
no-op: the function returns before any collaborator is invoked — no
agent-config fetch, no transcript write, no extraction, no webhook
delivery, no admin push. -/
theorem c10_save_call_data_noop (ucid : Str)
    (conversation : List (Speaker × Str)) (env : SaveEnv)
    (h : ucid = ("UNKNOWN").toList ∨ conversation = []) :
    saveCallData ucid conversation env = [] := by
  unfold saveCallData
  rcases h with h | h
  · rw [if_pos h]
  · by_cases h1 : ucid = ("UNKNOWN").toList
    · rw [if_pos h1]
    · rw [if_neg h1, if_pos (by simp [h])]

/-- Witness for C10: the placeholder id with a non-empty transcript, and
a real id with an empty transcript, both produce no effects. -/
theorem c10_save_call_data_noop_witness :
    saveCallData ("UNKNOWN").toList [(Speaker.user, ("haan").toList)]
        saveEnvAll = []
    ∧ saveCallData ("abc123").toList [] saveEnvAll = [] :=
  ⟨c10_save_call_data_noop ("UNKNOWN").toList
      [(Speaker.user, ("haan").toList)] saveEnvAll (Or.inl rfl),
   c10_save_call_data_noop ("abc123").toList [] saveEnvAll (Or.inr rfl)⟩

lemma sentTotal_append (l1 l2 : List PacerLog) :
    sentTotal (l1 ++ l2) = sentTotal l1 + sentTotal l2 := by
  unfold sentTotal
  rw [List.map_append, List.sum_append]

lemma sentTotal_send_cons (t : ℚ) (n : Nat) (l : List PacerLog) :
    sentTotal (PacerLog.send t n :: l) = n + sentTotal l := rfl

lemma applyPacerEnv_le (buf : Nat) (env : List PacerEv)
    (h : ∀ e ∈ env, isAppendEv e = false) : applyPacerEnv buf env ≤ buf := by
  induction env generalizing buf with
  | nil => exact le_rfl
  | cons e rest ih =>
    have he := h e (List.mem_cons_self e rest)
    have hrest : ∀ x ∈ rest, isAppendEv x = false :=
      fun x hx => h x (List.mem_cons_of_mem e hx)
    cases e with
    | append n => exact absurd he (by simp [isAppendEv])
    | clear =>
      calc applyPacerEnv buf (PacerEv.clear :: rest)
          = applyPacerEnv 0 rest := rfl
        _ ≤ 0 := ih 0 hrest
        _ ≤ buf := Nat.zero_le buf

lemma applyPacerEnv_clear (buf : Nat) (pre post : List PacerEv)
    (h : ∀ e ∈ post, isAppendEv e = false) :
    applyPacerEnv buf (pre ++ PacerEv.clear :: post) = 0 := by
  have h0 : applyPacerEnv buf (pre ++ PacerEv.clear :: post)
      = applyPacerEnv 0 post := by
    unfold applyPacerEnv
    rw [List.foldl_append]
    rfl
  rw [h0]
  exact Nat.le_zero.mp (applyPacerEnv_le 0 post h)

lemma pacerAdvanceTop_conserve (chunk : Nat) (s : PacerSt) :
    (pacerAdvanceTop chunk s).1.buffer + inflight (pacerAdvanceTop chunk s).1.pc
        = s.buffer
    ∧ sentTotal (pacerAdvanceTop chunk s).2 = 0 := by
  obtain ⟨pc, buffer, nextT, now⟩ := s
  unfold pacerAdvanceTop
  dsimp only
  by_cases hc : chunk ≤ buffer
  · rw [if_pos hc]
    cases nextT with
    | some n =>
      dsimp only
      by_cases hlt : now < n
      · rw [if_pos hlt]
        simp [inflight, sentTotal]
      · rw [if_neg hlt]
        refine ⟨?_, rfl⟩
        simp only [inflight]
        omega
    | none =>
      dsimp only
      refine ⟨?_, rfl⟩
      simp only [inflight]
      omega
  · rw [if_neg hc]
    simp [inflight, sentTotal]

lemma pacerStep_conserve (chunk : Nat) (dur : ℚ) (s : PacerSt)
    (env : List PacerEv) :
    sentTotal (pacerStep chunk dur s env).2
        + ((pacerStep chunk dur s env).1.buffer
            + inflight (pacerStep chunk dur s env).1.pc)
      ≤ applyPacerEnv s.buffer env + inflight s.pc := by
  obtain ⟨pc, buffer, nextT, now⟩ := s
  cases pc with
  | top =>
    unfold pacerStep
    dsimp only
    have h := pacerAdvanceTop_conserve chunk
      { pc := PacerPC.top, buffer := applyPacerEnv buffer env,
        nextT := nextT, now := now }
    simp only [inflight] at h ⊢
    omega
  | sleeping w =>
    unfold pacerStep
    dsimp only
    by_cases hb : applyPacerEnv buffer env < chunk
    · rw [if_pos hb]
      have h := pacerAdvanceTop_conserve chunk
        { pc := PacerPC.sleeping w, buffer := applyPacerEnv buffer env,
          nextT := none, now := w }
      simp only [inflight] at h ⊢
      omega
    · rw [if_neg hb]
      simp only [inflight, sentTotal, List.map_nil, List.sum_nil]
      omega
  | sending c =>
    unfold pacerStep
    dsimp only
    have h := pacerAdvanceTop_conserve chunk
      { pc := PacerPC.sending c, buffer := applyPacerEnv buffer env,
        nextT := match nextT with
          | none => some (now + dur)
          | some n => if n + dur < now - dur then some (now + dur)
                      else some (n + dur),
        now := now }
    rw [sentTotal_send_cons]
    simp only [inflight] at h ⊢
    omega
  | idling w =>
    unfold pacerStep
    dsimp only
    have h := pacerAdvanceTop_conserve chunk
      { pc := PacerPC.idling w, buffer := applyPacerEnv buffer env,
        nextT := nextT, now := w }
    simp only [inflight] at h ⊢
    omega

lemma runPacer_sent_le (chunk : Nat) (dur : ℚ) (s : PacerSt)
    (envs : List (List PacerEv))
    (h : ∀ env ∈ envs, ∀ e ∈ env, isAppendEv e = false) :
    sentTotal (runPacer chunk dur s envs).2 ≤ s.buffer + inflight s.pc := by
  induction envs generalizing s with
  | nil => simp [runPacer, sentTotal]
  | cons env rest ih =>
    have henv : ∀ e ∈ env, isAppendEv e = false :=
      fun e he => h env (List.mem_cons_self env rest) e he
    have hstep := pacerStep_conserve chunk dur s env
    have happ := applyPacerEnv_le s.buffer env henv
    have hrest := ih (pacerStep chunk dur s env).1
      (fun env2 h2 e he => h env2 (List.mem_cons_of_mem env h2) e he)
    show sentTotal (runPacer chunk dur s (env :: rest)).2 ≤ _
    unfold runPacer
    rw [sentTotal_append]
    omega

lemma inflight_le (chunk : Nat) (s : PacerSt) (hInv : PacerInv chunk s) :
    inflight s.pc ≤ chunk := by
  obtain ⟨pc, buffer, nextT, now⟩ := s
  cases pc with
  | sending c =>
    simp only [PacerInv] at hInv
    simp [inflight, hInv.1]
  | top => simp [inflight]
  | sleeping w => simp [inflight]
  | idling w => simp [inflight]

lemma pacerAdvanceTop_inv_none (chunk : Nat) (dur : ℚ) (s : PacerSt)
    (h : s.nextT = none) :
    PacerInv chunk (pacerAdvanceTop chunk s).1
    ∧ (∀ l2 : List PacerLog,
        paced dur (pacerBound (pacerAdvanceTop chunk s).1) l2 →
        paced dur none ((pacerAdvanceTop chunk s).2 ++ l2)) := by
  obtain ⟨pc, buffer, nextT, now⟩ := s
  simp only at h
  subst h
  unfold pacerAdvanceTop
  dsimp only
  by_cases hc : chunk ≤ buffer
  · rw [if_pos hc]
    constructor
    · simp [PacerInv]
    · intro l2 hl2
      simpa [pacerBound] using hl2
  · rw [if_neg hc]
    constructor
    · simp [PacerInv]
    · intro l2 hl2
      simp only [pacerBound] at hl2
      simpa [paced] using hl2

lemma pacerAdvanceTop_inv_some (chunk : Nat) (dur : ℚ) (s : PacerSt) (n : ℚ)
    (h : s.nextT = some n) (hlt : s.now < n) :
    PacerInv chunk (pacerAdvanceTop chunk s).1
    ∧ (∀ l2 : List PacerLog,
        paced dur (pacerBound (pacerAdvanceTop chunk s).1) l2 →
        paced dur (some n) ((pacerAdvanceTop chunk s).2 ++ l2)) := by
  obtain ⟨pc, buffer, nextT, now⟩ := s
  simp only at h hlt
  subst h
  unfold pacerAdvanceTop
  dsimp only
  by_cases hc : chunk ≤ buffer
  · rw [if_pos hc]
    simp only [if_pos hlt]
    constructor
    · exact ⟨rfl, le_of_lt hlt⟩
    · intro l2 hl2
      simpa [pacerBound] using hl2
  · rw [if_neg hc]
    constructor
    · simp [PacerInv]
    · intro l2 hl2
      simp only [pacerBound] at hl2
      simpa [paced] using hl2

lemma pacerStep_paced (chunk : Nat) (dur : ℚ) (hdur : 0 < dur) (s : PacerSt)
    (env : List PacerEv) (hInv : PacerInv chunk s) :
    PacerInv chunk (pacerStep chunk dur s env).1
    ∧ (∀ l2 : List PacerLog,
        paced dur (pacerBound (pacerStep chunk dur s env).1) l2 →
        paced dur (pacerBound s) ((pacerStep chunk dur s env).2 ++ l2)) := by
  obtain ⟨pc, buffer, nextT, now⟩ := s
  cases pc with
  | top =>
    simp only [PacerInv] at hInv
    subst hInv
    unfold pacerStep
    dsimp only
    exact pacerAdvanceTop_inv_none chunk dur
      { pc := PacerPC.top, buffer := applyPacerEnv buffer env,
        nextT := none, now := now } rfl
  | sleeping w =>
    simp only [PacerInv] at hInv
    obtain ⟨hnt, hle⟩ := hInv
    subst hnt
    unfold pacerStep
    dsimp only
    by_cases hb : applyPacerEnv buffer env < chunk
    · rw [if_pos hb]
      unfold pacerAdvanceTop
      dsimp only
      rw [if_neg (not_le.mpr hb)]
      constructor
      · simp [PacerInv]
      · intro l2 hl2
        simp only [pacerBound] at hl2
        simpa [paced] using hl2
    · rw [if_neg hb]
      constructor
      · exact ⟨rfl, Or.inr rfl⟩
      · intro l2 hl2
        simpa [pacerBound] using hl2
  | sending c =>
    simp only [PacerInv] at hInv
    obtain ⟨hc, hnt⟩ := hInv
    subst hc
    unfold pacerStep
    dsimp only
    rcases hnt with h0 | h0 <;> subst h0 <;> dsimp only
    · have hadv := pacerAdvanceTop_inv_some c dur
        { pc := PacerPC.sending c, buffer := applyPacerEnv buffer env,
          nextT := some (now + dur), now := now } (now + dur) rfl
        (by show now < now + dur; linarith)
      refine ⟨hadv.1, ?_⟩
      intro l2 hl2
      refine ⟨?_, hadv.2 l2 hl2⟩
      intro b hb
      simp only [pacerBound] at hb
      exact absurd hb (by simp)
    · have hclamp : ¬ (now + dur < now - dur) := by linarith
      rw [if_neg hclamp]
      have hadv := pacerAdvanceTop_inv_some c dur
        { pc := PacerPC.sending c, buffer := applyPacerEnv buffer env,
          nextT := some (now + dur), now := now } (now + dur) rfl
        (by show now < now + dur; linarith)
      refine ⟨hadv.1, ?_⟩
      intro l2 hl2
      refine ⟨?_, hadv.2 l2 hl2⟩
      intro b hb
      simp only [pacerBound, Option.some.injEq] at hb
      exact le_of_eq hb.symm
  | idling w =>
    simp only [PacerInv] at hInv
    subst hInv
    unfold pacerStep
    dsimp only
    exact pacerAdvanceTop_inv_none chunk dur
      { pc := PacerPC.idling w, buffer := applyPacerEnv buffer env,
        nextT := none, now := w } rfl

lemma runPacer_paced (chunk : Nat) (dur : ℚ) (hdur : 0 < dur) (s : PacerSt)
    (envs : List (List PacerEv)) (hInv : PacerInv chunk s) :
    paced dur (pacerBound s) (runPacer chunk dur s envs).2 := by
  induction envs generalizing s with
  | nil => simp [runPacer, paced]
  | cons env rest ih =>
    have hstep := pacerStep_paced chunk dur hdur s env hInv
    show paced dur (pacerBound s) (runPacer chunk dur s (env :: rest)).2
    unfold runPacer
    exact hstep.2 _ (ih _ hstep.1)

/-- C2 counterexample: with the default 800-sample (100 ms) output chunk
at 8 kHz, the pacer sends a chunk at time 0, the buffer empties and
pacing resets, the reader appends a fresh chunk during the 5 ms idle
poll, and the pacer sends again at time 1/200 s — two full chunks
delivered 5 ms apart, refuting "at most one chunk is sent per
chunk-duration (1/10 s) of wall-clock time". -/
theorem c2_counterexample :
    (runPacer 800 (1/10) (pacerInit 800) [[], [], [PacerEv.append 800], []]).2
      = [PacerLog.send 0 800, PacerLog.reset, PacerLog.send (1/200) 800,
         PacerLog.reset]
    ∧ ((1:ℚ)/200 - 0 < 1/10) := by
  constructor
  · norm_num [runPacer, pacerStep, pacerAdvanceTop, applyPacerEnv, applyPacerEv,
      pacerInit]
  · norm_num

/-- C2 (amended): (i) every run from an invariant state produces a paced
log — between consecutive sends with no pacing reset logged between
them, at least one chunk duration elapses; a reset is logged exactly
when the buffer dropped below one chunk, and only the first send after
such a reset may come sooner. (ii) overshoot bound: from the await
during which an interruption clears the buffer, with no appends after
the clear, the total audio delivered — including the at most one
already-popped in-flight chunk — is at most one chunk. -/
theorem c2_pacing_and_overshoot (chunk : Nat) (dur : ℚ) (s : PacerSt)
    (envs0 envs : List (List PacerEv)) (pre post : List PacerEv)
    (hdur : 0 < dur) (hInv : PacerInv chunk s)
    (hpost : ∀ e ∈ post, isAppendEv e = false)
    (henvs : ∀ env ∈ envs, ∀ e ∈ env, isAppendEv e = false) :
    paced dur (pacerBound s) (runPacer chunk dur s envs0).2
    ∧ sentTotal ((pacerStep chunk dur s (pre ++ PacerEv.clear :: post)).2
        ++ (runPacer chunk dur
              (pacerStep chunk dur s (pre ++ PacerEv.clear :: post)).1 envs).2)
      ≤ chunk := by
  constructor
  · exact runPacer_paced chunk dur hdur s envs0 hInv
  · rw [sentTotal_append]
    have hstep := pacerStep_conserve chunk dur s (pre ++ PacerEv.clear :: post)
    rw [applyPacerEnv_clear s.buffer pre post hpost] at hstep
    have hrun := runPacer_sent_le chunk dur
      (pacerStep chunk dur s (pre ++ PacerEv.clear :: post)).1 envs henvs
    have hinf := inflight_le chunk s hInv
    omega

/-- Witness for C2 (amended) at the default configuration, a fresh
sender holding one chunk, and an interruption with no later appends. -/
theorem c2_pacing_and_overshoot_witness :
    paced (1/10) (pacerBound (pacerInit 800))
        (runPacer 800 (1/10) (pacerInit 800) [[], []]).2
    ∧ sentTotal ((pacerStep 800 (1/10) (pacerInit 800)
          ([] ++ PacerEv.clear :: [])).2
        ++ (runPacer 800 (1/10)
              (pacerStep 800 (1/10) (pacerInit 800)
                ([] ++ PacerEv.clear :: [])).1 []).2)
      ≤ 800 :=
  c2_pacing_and_overshoot 800 (1/10) (pacerInit 800) [[], []] [] [] []
    (by norm_num) rfl (by simp) (by simp)
